import Mathlib

/-!
Verification development for the sleep-api leaderboard computation engine.

The definitions below are a shallow embedding of the `GET /leaderboard`
route of `src/routes/leaderboard.ts` (the current revision, whose final
board sort carries the raw-value tie-break), together with the
week-offset window resolver that appears in the earlier revision of the
same route (the one taking an `offset` query parameter and querying the
half-open interval `[startOfWeek, endOfWeek)`).

Modelling conventions:
* JavaScript millisecond timestamps are `Int`; `Date` operations become
  arithmetic on milliseconds (`setUTCDate` adds whole days,
  `setUTCHours(0,0,0,0)` truncates to the UTC midnight, `getUTCDay`
  uses the fact that the Unix epoch fell on a Thursday).
* A JS `Map` is an insertion-ordered association list: `set` updates an
  existing key in place and appends a fresh key; `get` scans for the key.
* `Array.prototype.sort` (stable, comparator-based) is modelled as the
  stable insertion sort `insSort` with the boolean relation
  `le a b ↔ cmp a b ≤ 0`; for a total preorder the stable sorted
  permutation is unique, so any stable sort — the engine's and this
  one — produces the same list.
* The in-place mutation of the shared day buckets performed by
  `calculateBoard` (it sorts each bucket's array before awarding points)
  is made explicit: `calculateBoard` returns the board together with the
  re-sorted buckets, and the route threads the buckets through the four
  variant invocations in their source order.
-/

namespace SleepApi

/-- A row of the `SleepNight` table as fetched by the route: owner,
`date` as a millisecond UTC timestamp, and the three duration fields. -/
structure SleepNight where
  userId : String
  date : Int
  totalSleepMinutes : Int
  remSleepMinutes : Int
  deepSleepMinutes : Int
deriving DecidableEq, Repr

/-- The projection of a `User` row selected by the route
(`id, displayName, email, avatarUrl`). -/
structure UserDetails where
  id : String
  displayName : Option String
  email : Option String
  avatarUrl : Option String
deriving DecidableEq, Repr

/-- The `LeaderboardUser` output row of the route. -/
structure LeaderboardUser where
  userId : String
  displayName : Option String
  email : Option String
  avatarUrl : Option String
  points : Nat
  value : Int
  nightsLogged : Nat
deriving DecidableEq, Repr

/-- The per-record projection `DayStat` built while bucketing. -/
structure DayStat where
  userId : String
  total : Int
  rem : Int
  deep : Int
deriving DecidableEq, Repr

/-- JS `Map.prototype.get` with a default (`m.get(k) || d`). -/
def mapGetD {α β : Type} [DecidableEq α] : List (α × β) → α → β → β
  | [], _, d => d
  | p :: m, k, d => if p.1 = k then p.2 else mapGetD m k d

/-- JS `Map.prototype.get` (`m.get(k)`), returning an option. -/
def mapFind? {α β : Type} [DecidableEq α] : List (α × β) → α → Option β
  | [], _ => none
  | p :: m, k => if p.1 = k then some p.2 else mapFind? m k

/-- JS `Map.prototype.set`: update an existing key in place, append a
fresh key at the end (insertion order is preserved). -/
def mapSet {α β : Type} [DecidableEq α] : List (α × β) → α → β → List (α × β)
  | [], k, v => [(k, v)]
  | p :: m, k, v => if p.1 = k then (k, v) :: m else p :: mapSet m k v

/-- `Array.from(new Set(xs))`: deduplication keeping first occurrences. -/
def dedupFirst (xs : List String) : List String :=
  xs.foldl (fun acc x => if x ∈ acc then acc else acc ++ [x]) []

/-! ### A stable comparator sort

`Array.prototype.sort` with a consistent comparator is a stable sort for
the total preorder `le a b ↔ cmp a b ≤ 0`.  The stable sorted
permutation of a list is unique, so the structurally recursive insertion
sort below computes exactly what the engine's sort returns. -/

/-- Insert `x` before the first element it compares `le` to (elements
tied with `x` stay in front of it, as `x` originated to their left). -/
def insertLe {α : Type} (le : α → α → Bool) (x : α) : List α → List α
  | [] => [x]
  | y :: l => if le x y then x :: y :: l else y :: insertLe le x l

/-- Stable insertion sort by a boolean comparator relation. -/
def insSort {α : Type} (le : α → α → Bool) : List α → List α
  | [] => []
  | x :: l => insertLe le x (insSort le l)

theorem insertLe_perm {α : Type} (le : α → α → Bool) (x : α) :
    ∀ (l : List α), List.Perm (insertLe le x l) (x :: l)
  | [] => List.Perm.refl _
  | y :: l => by
    unfold insertLe
    by_cases h : le x y
    · rw [if_pos h]
    · rw [if_neg h]
      exact ((insertLe_perm le x l).cons y).trans (List.Perm.swap x y l)

theorem insSort_perm {α : Type} (le : α → α → Bool) :
    ∀ (l : List α), List.Perm (insSort le l) l
  | [] => List.Perm.refl _
  | x :: l =>
    (insertLe_perm le x (insSort le l)).trans ((insSort_perm le l).cons x)

theorem insertLe_sorted {α : Type} (le : α → α → Bool)
    (trans : ∀ a b c, le a b → le b c → le a c)
    (total : ∀ a b, le a b || le b a) (x : α) :
    ∀ (l : List α), l.Pairwise (fun a b => le a b = true) →
      (insertLe le x l).Pairwise (fun a b => le a b = true)
  | [], _ => List.pairwise_singleton _ x
  | y :: l, h => by
    unfold insertLe
    by_cases hxy : le x y
    · rw [if_pos hxy]
      refine List.Pairwise.cons ?_ h
      intro z hz
      rcases List.mem_cons.mp hz with rfl | hz'
      · exact hxy
      · exact trans x y z hxy (List.rel_of_pairwise_cons h hz')
    · rw [if_neg hxy]
      refine List.Pairwise.cons ?_
        (insertLe_sorted le trans total x l h.of_cons)
      intro z hz
      have hz' := (insertLe_perm le x l).mem_iff.mp hz
      rcases List.mem_cons.mp hz' with hzx | hz''
      · rw [hzx]
        rcases Bool.or_eq_true_iff.mp (total x y) with h' | h'
        · exact absurd h' hxy
        · exact h'
      · exact List.rel_of_pairwise_cons h hz''

theorem insSort_sorted {α : Type} (le : α → α → Bool)
    (trans : ∀ a b c, le a b → le b c → le a c)
    (total : ∀ a b, le a b || le b a) :
    ∀ (l : List α), (insSort le l).Pairwise (fun a b => le a b = true)
  | [] => List.Pairwise.nil
  | x :: l =>
    insertLe_sorted le trans total x (insSort le l)
      (insSort_sorted le trans total l)

/-! ### Window resolver -/

def msPerDay : Int := 86400000

/-- `Date.prototype.getUTCDay` (0 = Sunday … 6 = Saturday); the Unix
epoch 1970-01-01 was a Thursday (= 4). -/
def utcDay (t : Int) : Int := (Int.fdiv t msPerDay + 4) % 7

/-- `setUTCHours(0, 0, 0, 0)`: truncate a timestamp to 00:00 UTC. -/
def truncToUTCDay (t : Int) : Int := Int.fdiv t msPerDay * msPerDay

/-- The UTC calendar day of a timestamp: the bucket key produced by
`night.date.toISOString().split("T")[0]`, with equal strings exactly
when the day numbers agree. -/
def dateKey (t : Int) : Int := Int.fdiv t msPerDay

/-- Start of the requested week, from the offset-taking revision of the
route: `diffToMonday = utcDay === 0 ? 6 : utcDay - 1`, then
`setUTCDate(now.getUTCDate() - diffToMonday - offset * 7)` followed by
`setUTCHours(0,0,0,0)`. -/
def startOfWeek (now : Int) (offset : Int) : Int :=
  let d := utcDay now
  let diffToMonday := if d = 0 then 6 else d - 1
  truncToUTCDay (now - (diffToMonday + offset * 7) * msPerDay)

/-- `endOfWeek = startOfWeek + 7 days` (`setUTCDate(start.getUTCDate() + 7)`
applied to a midnight-aligned date). -/
def endOfWeek (now : Int) (offset : Int) : Int :=
  startOfWeek now offset + 7 * msPerDay

/-- The `prisma.sleepNight.findMany` filter of the offset-taking
revision: `userId ∈ targetUserIds`, `date ≥ startOfWeek`, `date < endOfWeek`. -/
def fetchedNights (nights : List SleepNight) (targetUserIds : List String)
    (now : Int) (offset : Int) : List SleepNight :=
  nights.filter (fun n =>
    targetUserIds.contains n.userId
      && decide (startOfWeek now offset ≤ n.date)
      && decide (n.date < endOfWeek now offset))

/-! ### Daily bucketing (steps 4 of the route) -/

/-- The `DayStat` pushed for a raw night. -/
def mkStat (n : SleepNight) : DayStat :=
  ⟨n.userId, n.totalSleepMinutes, n.remSleepMinutes, n.deepSleepMinutes⟩

/-- Day buckets in key-insertion order. -/
abbrev Buckets := List (Int × List DayStat)

/-- One `rawNights.forEach` step of the grouping: skip a night shorter
than 45 minutes, otherwise push its `DayStat` onto its day's bucket. -/
def bucketStep (m : Buckets) (night : SleepNight) : Buckets :=
  if night.totalSleepMinutes < 45 then m
  else
    mapSet m (dateKey night.date)
      (mapGetD m (dateKey night.date) [] ++ [mkStat night])

/-- `nightsByDate`: drop nights with `totalSleepMinutes < 45`, then group
the remaining records by UTC calendar day, appending within a bucket. -/
def nightsByDate (rawNights : List SleepNight) : Buckets :=
  rawNights.foldl bucketStep []

/-! ### Scoring (step 5 of the route, `calculateBoard`) -/

/-- The day-bucket comparator as a boolean relation:
`le a b ↔ (sortAscending ? valA - valB : valB - valA) ≤ 0`. -/
def bucketLe (metricFn : DayStat → Int) (sortAscending : Bool)
    (a b : DayStat) : Bool :=
  if sortAscending then decide (metricFn a ≤ metricFn b)
  else decide (metricFn b ≤ metricFn a)

/-- `stats.sort(...)` inside `calculateBoard`. -/
def sortBucket (metricFn : DayStat → Int) (sortAscending : Bool)
    (stats : List DayStat) : List DayStat :=
  insSort (bucketLe metricFn sortAscending) stats

/-- Sorting every bucket: the net effect of one `calculateBoard` call on
the shared `nightsByDate` map. -/
def sortBuckets (metricFn : DayStat → Int) (sortAscending : Bool)
    (buckets : Buckets) : Buckets :=
  buckets.map (fun b => (b.1, sortBucket metricFn sortAscending b.2))

/-- `index === 0 ? 3 : index === 1 ? 2 : index === 2 ? 1 : 0`. -/
def awardPoints (index : Nat) : Nat :=
  if index = 0 then 3 else if index = 1 then 2 else if index = 2 then 1 else 0

/-- The three accumulation maps of `calculateBoard`. -/
structure Accum where
  points : List (String × Nat)
  valueSum : List (String × Int)
  nightsLogged : List (String × Nat)
deriving DecidableEq, Repr

/-- `targetUserIds.forEach(id => { … set(id, 0) … })`. -/
def initAccum (targetUserIds : List String) : Accum where
  points := targetUserIds.foldl (fun m id => mapSet m id 0) []
  valueSum := targetUserIds.foldl (fun m id => mapSet m id 0) []
  nightsLogged := targetUserIds.foldl (fun m id => mapSet m id 0) []

/-- One `stats.forEach((stat, index) => …)` step: award points by rank,
accumulate the raw metric value and the nights count. -/
def scoreStat (metricFn : DayStat → Int) (acc : Accum)
    (istat : Nat × DayStat) : Accum where
  points := mapSet acc.points istat.2.userId
    (mapGetD acc.points istat.2.userId 0 + awardPoints istat.1)
  valueSum := mapSet acc.valueSum istat.2.userId
    (mapGetD acc.valueSum istat.2.userId 0 + metricFn istat.2)
  nightsLogged := mapSet acc.nightsLogged istat.2.userId
    (mapGetD acc.nightsLogged istat.2.userId 0 + 1)

/-- Scoring one already-sorted day bucket. -/
def scoreDay (metricFn : DayStat → Int) (acc : Accum)
    (sortedStats : List DayStat) : Accum :=
  sortedStats.enum.foldl (scoreStat metricFn) acc

/-- The final board comparator as a boolean relation:
`le a b ↔ cmp a b ≤ 0` for
`cmp = (a, b) => b.points !== a.points ? b.points - a.points
              : (sortAscending ? a.value - b.value : b.value - a.value)`. -/
def finalLe (sortAscending : Bool) (a b : LeaderboardUser) : Bool :=
  if a.points = b.points then
    if sortAscending then decide (a.value ≤ b.value)
    else decide (b.value ≤ a.value)
  else decide (b.points < a.points)

/-- `nightsByDate.forEach((stats) => …)`: score every (already sorted)
day bucket in insertion order. -/
def scoreBuckets (metricFn : DayStat → Int) (acc : Accum)
    (buckets : Buckets) : Accum :=
  buckets.foldl (fun a b => scoreDay metricFn a b.2) acc

/-- One step of the `targetUserIds.forEach` assembling the `result`
array: push a row exactly when the user logged at least one night. -/
def pushRow (userMap : List (String × UserDetails)) (acc : Accum)
    (r : List LeaderboardUser) (id : String) : List LeaderboardUser :=
  let logged := mapGetD acc.nightsLogged id 0
  if logged > 0 then
    r ++ [{ userId := id
            displayName := (mapFind? userMap id).bind (·.displayName)
            email := (mapFind? userMap id).bind (·.email)
            avatarUrl := (mapFind? userMap id).bind (·.avatarUrl)
            points := mapGetD acc.points id 0
            value := mapGetD acc.valueSum id 0
            nightsLogged := logged }]
  else r

/-- The unsorted `result` array: one row per target user with at least
one logged night, in `targetUserIds` order. -/
def assembleRows (targetUserIds : List String)
    (userMap : List (String × UserDetails)) (acc : Accum) :
    List LeaderboardUser :=
  targetUserIds.foldl (pushRow userMap acc) []

/-- `calculateBoard(metricFn, sortAscending)`: sort each shared bucket in
place, award 3/2/1/0 by rank per day, accumulate, assemble the rows of
users with at least one logged night, and sort by points with the
raw-value tie-break.  Returns the board together with the buckets as the
call leaves them (each bucket now sorted by this metric). -/
def calculateBoard (metricFn : DayStat → Int) (sortAscending : Bool)
    (targetUserIds : List String) (userMap : List (String × UserDetails))
    (buckets : Buckets) : List LeaderboardUser × Buckets :=
  let sorted := sortBuckets metricFn sortAscending buckets
  let acc := scoreBuckets metricFn (initAccum targetUserIds) sorted
  (insSort (finalLe sortAscending) (assembleRows targetUserIds userMap acc),
    sorted)

/-! ### The four variants and the route -/

inductive Variant
  | survivalist
  | hibernator
  | tomRemmer
  | rollingInTheDeep
deriving DecidableEq, Repr, Fintype

def Variant.metricFn : Variant → DayStat → Int
  | .survivalist => (·.total)
  | .hibernator => (·.total)
  | .tomRemmer => (·.rem)
  | .rollingInTheDeep => (·.deep)

def Variant.sortAscending : Variant → Bool
  | .survivalist => true
  | .hibernator => false
  | .tomRemmer => false
  | .rollingInTheDeep => false

/-- The order in which the route invokes `calculateBoard`. -/
def variantOrder : List Variant :=
  [.survivalist, .hibernator, .tomRemmer, .rollingInTheDeep]

/-- Running a sequence of `calculateBoard` invocations over the shared
(mutable) buckets, recording each variant's board. -/
def runVariants (targetUserIds : List String)
    (userMap : List (String × UserDetails)) (order : List Variant)
    (buckets : Buckets) : List (Variant × List LeaderboardUser) × Buckets :=
  order.foldl (fun st v =>
    let r := calculateBoard v.metricFn v.sortAscending targetUserIds userMap st.2
    (st.1 ++ [(v, r.1)], r.2)) ([], buckets)

/-- The `leaderboards` object of the response. -/
structure Boards where
  survivalist : List LeaderboardUser
  hibernator : List LeaderboardUser
  tomRemmer : List LeaderboardUser
  rollingInTheDeep : List LeaderboardUser
deriving DecidableEq, Repr

def emptyBoards : Boards := ⟨[], [], [], []⟩

/-- Step 6 of the route: the four `calculateBoard` calls in source order,
threading the shared buckets. -/
def computeLeaderboards (targetUserIds : List String)
    (userMap : List (String × UserDetails))
    (rawNights : List SleepNight) : Boards :=
  let b0 := nightsByDate rawNights
  let s := calculateBoard (·.total) true targetUserIds userMap b0
  let h := calculateBoard (·.total) false targetUserIds userMap s.2
  let t := calculateBoard (·.rem) false targetUserIds userMap h.2
  let r := calculateBoard (·.deep) false targetUserIds userMap t.2
  ⟨s.1, h.1, t.1, r.1⟩

/-! ### The full route handler (scope resolution + fetch) -/

/-- A row of the `User` table, with the fields the route reads. -/
structure User where
  id : String
  displayName : Option String
  email : Option String
  avatarUrl : Option String
  groupId : Option String
deriving DecidableEq, Repr

/-- A row of the `Friend` table (one directed row per undirected edge). -/
structure FriendEdge where
  userId : String
  friendId : String
deriving DecidableEq, Repr

/-- The read-only database snapshot the route queries. -/
structure Db where
  users : List User
  friends : List FriendEdge
  sleepNights : List SleepNight
deriving Repr

inductive Scope
  | friends
  | clan
deriving DecidableEq, Repr

/-- Step 2 of the route: resolve `targetUserIds`.  `none` is the clan
short-circuit (`!currentUserData?.groupId`), taken before any
sleep-record query. -/
def resolveTargets (db : Db) (userId : String) (scope : Scope) :
    Option (List String) :=
  match scope with
  | .clan =>
    match (db.users.find? (fun u => u.id == userId)).bind (·.groupId) with
    | none => none
    | some gid =>
      some (dedupFirst
        ((db.users.filter (fun u => u.groupId == some gid)).map (·.id)))
  | .friends =>
    let relations := db.friends.filter (fun rel =>
      rel.userId == userId || rel.friendId == userId)
    let friendIds := relations.map (fun rel =>
      if rel.userId = userId then rel.friendId else rel.userId)
    some (dedupFirst ([userId] ++ friendIds))

/-- `new Map(userDetails.map(u => [u.id, u]))` over the selected users. -/
def buildUserMap (db : Db) (targetUserIds : List String) :
    List (String × UserDetails) :=
  (db.users.filter (fun u => targetUserIds.contains u.id)).foldl
    (fun m u => mapSet m u.id ⟨u.id, u.displayName, u.email, u.avatarUrl⟩) []

/-- The `GET /leaderboard` handler for an authenticated user.  The
boolean of the result records whether the `sleepNight` query was issued
(it is skipped exactly on the not-in-a-clan short-circuit).  The current
revision of the route has no `offset` parameter and queries
`date ≥ startOfWeek` with no upper bound. -/
def leaderboardHandler (db : Db) (userId : String) (scope : Scope)
    (now : Int) : Boards × Bool :=
  match resolveTargets db userId scope with
  | none => (emptyBoards, false)
  | some targetUserIds =>
    let start := startOfWeek now 0
    let rawNights := db.sleepNights.filter (fun n =>
      targetUserIds.contains n.userId && decide (start ≤ n.date))
    (computeLeaderboards targetUserIds (buildUserMap db targetUserIds)
      rawNights, true)

/-! ### Derived quantities used to state the properties -/

/-- Points user `u` earns in one sorted day bucket: the rank award at
every position holding one of `u`'s records. -/
def dayAward (u : String) (stats : List DayStat) : Nat :=
  (stats.enum.map (fun p => if p.2.userId = u then awardPoints p.1 else 0)).sum

/-- Raw metric value user `u` accumulates from one day bucket. -/
def dayValue (metricFn : DayStat → Int) (u : String)
    (stats : List DayStat) : Int :=
  (stats.map (fun s => if s.userId = u then metricFn s else 0)).sum

/-- Number of records of user `u` in one day bucket. -/
def countU (u : String) (stats : List DayStat) : Nat :=
  stats.countP (fun s => s.userId == u)

/-- Total points of `u` across a bucket list. -/
def bucketsAward (u : String) (buckets : Buckets) : Nat :=
  (buckets.map (fun b => dayAward u b.2)).sum

/-- Total record count of `u` across a bucket list. -/
def bucketsCountU (u : String) (buckets : Buckets) : Nat :=
  (buckets.map (fun b => countU u b.2)).sum

/-! ### Association-list map lemmas -/

theorem mapGetD_set_self {α β : Type} [DecidableEq α]
    (m : List (α × β)) (k : α) (v d : β) :
    mapGetD (mapSet m k v) k d = v := by
  induction m with
  | nil => simp [mapSet, mapGetD]
  | cons p m ih =>
    by_cases h : p.1 = k
    · simp [mapSet, h, mapGetD]
    · simp [mapSet, h, mapGetD, ih]

theorem mapGetD_set_ne {α β : Type} [DecidableEq α]
    (m : List (α × β)) (k k' : α) (v d : β) (h : k' ≠ k) :
    mapGetD (mapSet m k v) k' d = mapGetD m k' d := by
  induction m with
  | nil =>
    simp only [mapSet, mapGetD]
    rw [if_neg (Ne.symm h)]
  | cons p m ih =>
    by_cases hp : p.1 = k
    · simp only [mapSet, if_pos hp, mapGetD]
      rw [if_neg (Ne.symm h), if_neg (by rw [hp]; exact Ne.symm h)]
    · simp only [mapSet, if_neg hp, mapGetD, ih]

theorem mapGetD_zero_init {α β : Type} [DecidableEq α] [Zero β]
    (ids : List α) (m : List (α × β)) (u : α)
    (h : mapGetD m u 0 = 0) :
    mapGetD (ids.foldl (fun m id => mapSet m id (0 : β)) m) u 0 = 0 := by
  induction ids generalizing m with
  | nil => simpa using h
  | cons i ids ih =>
    rw [List.foldl_cons]
    refine ih _ ?_
    by_cases hi : u = i
    · subst hi; rw [mapGetD_set_self]
    · rw [mapGetD_set_ne _ _ _ _ _ hi, h]

theorem initAccum_points (ids : List String) (u : String) :
    mapGetD (initAccum ids).points u 0 = 0 :=
  mapGetD_zero_init ids [] u rfl

theorem initAccum_valueSum (ids : List String) (u : String) :
    mapGetD (initAccum ids).valueSum u 0 = 0 :=
  mapGetD_zero_init ids [] u rfl

theorem initAccum_nightsLogged (ids : List String) (u : String) :
    mapGetD (initAccum ids).nightsLogged u 0 = 0 :=
  mapGetD_zero_init ids [] u rfl

/-! ### Accumulation characterization -/

theorem foldl_scoreStat_points (metricFn : DayStat → Int) (u : String) :
    ∀ (l : List (Nat × DayStat)) (acc : Accum),
    mapGetD (l.foldl (scoreStat metricFn) acc).points u 0
      = mapGetD acc.points u 0
        + (l.map (fun p => if p.2.userId = u then awardPoints p.1 else 0)).sum
  | [], acc => by simp
  | p :: l, acc => by
    rw [List.foldl_cons, foldl_scoreStat_points metricFn u l,
      List.map_cons, List.sum_cons]
    by_cases h : p.2.userId = u
    · rw [if_pos h, show (scoreStat metricFn acc p).points
        = mapSet acc.points p.2.userId
            (mapGetD acc.points p.2.userId 0 + awardPoints p.1) from rfl,
        h, mapGetD_set_self]
      omega
    · rw [if_neg h, show (scoreStat metricFn acc p).points
        = mapSet acc.points p.2.userId
            (mapGetD acc.points p.2.userId 0 + awardPoints p.1) from rfl,
        mapGetD_set_ne _ _ _ _ _ fun e => h e.symm]
      omega

theorem foldl_scoreStat_valueSum (metricFn : DayStat → Int) (u : String) :
    ∀ (l : List (Nat × DayStat)) (acc : Accum),
    mapGetD (l.foldl (scoreStat metricFn) acc).valueSum u 0
      = mapGetD acc.valueSum u 0
        + (l.map (fun p => if p.2.userId = u then metricFn p.2 else 0)).sum
  | [], acc => by simp
  | p :: l, acc => by
    rw [List.foldl_cons, foldl_scoreStat_valueSum metricFn u l,
      List.map_cons, List.sum_cons]
    by_cases h : p.2.userId = u
    · rw [if_pos h, show (scoreStat metricFn acc p).valueSum
        = mapSet acc.valueSum p.2.userId
            (mapGetD acc.valueSum p.2.userId 0 + metricFn p.2) from rfl,
        h, mapGetD_set_self]
      ring
    · rw [if_neg h, show (scoreStat metricFn acc p).valueSum
        = mapSet acc.valueSum p.2.userId
            (mapGetD acc.valueSum p.2.userId 0 + metricFn p.2) from rfl,
        mapGetD_set_ne _ _ _ _ _ fun e => h e.symm]
      ring

theorem foldl_scoreStat_nightsLogged (metricFn : DayStat → Int) (u : String) :
    ∀ (l : List (Nat × DayStat)) (acc : Accum),
    mapGetD (l.foldl (scoreStat metricFn) acc).nightsLogged u 0
      = mapGetD acc.nightsLogged u 0
        + (l.map (fun p => if p.2.userId = u then 1 else 0)).sum
  | [], acc => by simp
  | p :: l, acc => by
    rw [List.foldl_cons, foldl_scoreStat_nightsLogged metricFn u l,
      List.map_cons, List.sum_cons]
    by_cases h : p.2.userId = u
    · rw [if_pos h, show (scoreStat metricFn acc p).nightsLogged
        = mapSet acc.nightsLogged p.2.userId
            (mapGetD acc.nightsLogged p.2.userId 0 + 1) from rfl,
        h, mapGetD_set_self]
      omega
    · rw [if_neg h, show (scoreStat metricFn acc p).nightsLogged
        = mapSet acc.nightsLogged p.2.userId
            (mapGetD acc.nightsLogged p.2.userId 0 + 1) from rfl,
        mapGetD_set_ne _ _ _ _ _ fun e => h e.symm]
      omega

/-- Total raw metric value of `u` across a bucket list. -/
def bucketsValue (metricFn : DayStat → Int) (u : String)
    (buckets : Buckets) : Int :=
  (buckets.map (fun b => dayValue metricFn u b.2)).sum

theorem enum_map_snd_comp {α β : Type} (l : List α) (g : α → β) :
    l.enum.map (fun p => g p.2) = l.map g := by
  rw [show (fun p : Nat × α => g p.2) = g ∘ Prod.snd from rfl,
    ← List.map_map, List.enum_map_snd]

theorem countU_eq_sum (u : String) (stats : List DayStat) :
    countU u stats = (stats.map (fun s => if s.userId = u then 1 else 0)).sum := by
  induction stats with
  | nil => simp [countU]
  | cons s l ih =>
    by_cases h : s.userId = u
    · simp [countU, List.countP_cons, h] at ih ⊢; omega
    · simp [countU, List.countP_cons, h] at ih ⊢; omega

theorem scoreDay_points (metricFn : DayStat → Int) (acc : Accum)
    (stats : List DayStat) (u : String) :
    mapGetD (scoreDay metricFn acc stats).points u 0
      = mapGetD acc.points u 0 + dayAward u stats :=
  foldl_scoreStat_points metricFn u stats.enum acc

theorem scoreDay_valueSum (metricFn : DayStat → Int) (acc : Accum)
    (stats : List DayStat) (u : String) :
    mapGetD (scoreDay metricFn acc stats).valueSum u 0
      = mapGetD acc.valueSum u 0 + dayValue metricFn u stats := by
  rw [show (scoreDay metricFn acc stats) = stats.enum.foldl (scoreStat metricFn) acc from rfl,
    foldl_scoreStat_valueSum, dayValue,
    enum_map_snd_comp stats (fun s => if s.userId = u then metricFn s else 0)]

theorem scoreDay_nightsLogged (metricFn : DayStat → Int) (acc : Accum)
    (stats : List DayStat) (u : String) :
    mapGetD (scoreDay metricFn acc stats).nightsLogged u 0
      = mapGetD acc.nightsLogged u 0 + countU u stats := by
  rw [show (scoreDay metricFn acc stats) = stats.enum.foldl (scoreStat metricFn) acc from rfl,
    foldl_scoreStat_nightsLogged, countU_eq_sum,
    enum_map_snd_comp stats (fun s => if s.userId = u then (1 : Nat) else 0)]

theorem scoreBuckets_points (metricFn : DayStat → Int) (u : String) :
    ∀ (buckets : Buckets) (acc : Accum),
    mapGetD (scoreBuckets metricFn acc buckets).points u 0
      = mapGetD acc.points u 0 + bucketsAward u buckets
  | [], acc => by simp [scoreBuckets, bucketsAward]
  | b :: bs, acc => by
    rw [show scoreBuckets metricFn acc (b :: bs)
      = scoreBuckets metricFn (scoreDay metricFn acc b.2) bs from rfl,
      scoreBuckets_points metricFn u bs, scoreDay_points]
    simp [bucketsAward]; omega

theorem scoreBuckets_valueSum (metricFn : DayStat → Int) (u : String) :
    ∀ (buckets : Buckets) (acc : Accum),
    mapGetD (scoreBuckets metricFn acc buckets).valueSum u 0
      = mapGetD acc.valueSum u 0 + bucketsValue metricFn u buckets
  | [], acc => by simp [scoreBuckets, bucketsValue]
  | b :: bs, acc => by
    rw [show scoreBuckets metricFn acc (b :: bs)
      = scoreBuckets metricFn (scoreDay metricFn acc b.2) bs from rfl,
      scoreBuckets_valueSum metricFn u bs, scoreDay_valueSum]
    simp [bucketsValue]; ring

theorem scoreBuckets_nightsLogged (metricFn : DayStat → Int) (u : String) :
    ∀ (buckets : Buckets) (acc : Accum),
    mapGetD (scoreBuckets metricFn acc buckets).nightsLogged u 0
      = mapGetD acc.nightsLogged u 0 + bucketsCountU u buckets
  | [], acc => by simp [scoreBuckets, bucketsCountU]
  | b :: bs, acc => by
    rw [show scoreBuckets metricFn acc (b :: bs)
      = scoreBuckets metricFn (scoreDay metricFn acc b.2) bs from rfl,
      scoreBuckets_nightsLogged metricFn u bs, scoreDay_nightsLogged]
    simp [bucketsCountU]; omega

/-! ### Assembled rows -/

theorem foldl_pushRow_mem (userMap : List (String × UserDetails))
    (acc : Accum) :
    ∀ (ids : List String) (r0 : List LeaderboardUser) (row : LeaderboardUser),
    row ∈ ids.foldl (pushRow userMap acc) r0 →
    row ∈ r0 ∨
      (row.userId ∈ ids ∧
        row.points = mapGetD acc.points row.userId 0 ∧
        row.value = mapGetD acc.valueSum row.userId 0 ∧
        row.nightsLogged = mapGetD acc.nightsLogged row.userId 0 ∧
        0 < row.nightsLogged)
  | [], r0, row => fun h => Or.inl h
  | id :: ids, r0, row => by
    intro h
    rw [List.foldl_cons] at h
    rcases foldl_pushRow_mem userMap acc ids _ row h with h' | h'
    · unfold pushRow at h'
      by_cases hl : 0 < mapGetD acc.nightsLogged id 0
      · rw [if_pos hl] at h'
        rcases List.mem_append.mp h' with h'' | h''
        · exact Or.inl h''
        · right
          rcases List.mem_singleton.mp h'' with rfl
          refine ⟨List.mem_cons_self _ _, rfl, rfl, rfl, hl⟩
      · rw [if_neg hl] at h'
        exact Or.inl h'
    · exact Or.inr ⟨List.mem_cons_of_mem _ h'.1, h'.2⟩

theorem foldl_pushRow_sub (userMap : List (String × UserDetails))
    (acc : Accum) :
    ∀ (ids : List String) (r0 : List LeaderboardUser) (row : LeaderboardUser),
    row ∈ r0 → row ∈ ids.foldl (pushRow userMap acc) r0
  | [], r0, row => fun h => h
  | id :: ids, r0, row => by
    intro h
    rw [List.foldl_cons]
    refine foldl_pushRow_sub userMap acc ids _ row ?_
    unfold pushRow
    by_cases hl : 0 < mapGetD acc.nightsLogged id 0
    · rw [if_pos hl]; exact List.mem_append_left _ h
    · rw [if_neg hl]; exact h

theorem foldl_pushRow_exists (userMap : List (String × UserDetails))
    (acc : Accum) :
    ∀ (ids : List String) (r0 : List LeaderboardUser) (u : String),
    u ∈ ids → 0 < mapGetD acc.nightsLogged u 0 →
    ∃ row ∈ ids.foldl (pushRow userMap acc) r0, row.userId = u
  | [], _, u => by simp
  | id :: ids, r0, u => by
    intro hu hl
    rw [List.foldl_cons]
    by_cases hi : u = id
    · subst hi
      refine ⟨{ userId := u
                displayName := (mapFind? userMap u).bind (·.displayName)
                email := (mapFind? userMap u).bind (·.email)
                avatarUrl := (mapFind? userMap u).bind (·.avatarUrl)
                points := mapGetD acc.points u 0
                value := mapGetD acc.valueSum u 0
                nightsLogged := mapGetD acc.nightsLogged u 0 },
        foldl_pushRow_sub userMap acc ids _ _ ?_, rfl⟩
      unfold pushRow
      rw [if_pos hl]
      exact List.mem_append_right _ (List.mem_singleton.mpr rfl)
    · rcases List.mem_cons.mp hu with h | h
      · exact absurd h hi
      · exact foldl_pushRow_exists userMap acc ids _ u h hl

/-- Shape of every row on a `calculateBoard` board: its owner is a target
user, and its fields are the accumulated award/value/count totals over
the sorted buckets. -/
theorem calculateBoard_mem (metricFn : DayStat → Int) (sortAscending : Bool)
    (targetUserIds : List String) (userMap : List (String × UserDetails))
    (buckets : Buckets) (row : LeaderboardUser)
    (h : row ∈ (calculateBoard metricFn sortAscending targetUserIds userMap
      buckets).1) :
    row.userId ∈ targetUserIds ∧
      row.points = bucketsAward row.userId
        (sortBuckets metricFn sortAscending buckets) ∧
      row.value = bucketsValue metricFn row.userId
        (sortBuckets metricFn sortAscending buckets) ∧
      row.nightsLogged = bucketsCountU row.userId
        (sortBuckets metricFn sortAscending buckets) ∧
      0 < row.nightsLogged := by
  have h' : row ∈ assembleRows targetUserIds userMap
      (scoreBuckets metricFn (initAccum targetUserIds)
        (sortBuckets metricFn sortAscending buckets)) :=
    (insSort_perm (finalLe sortAscending) _).mem_iff.mp h
  rcases foldl_pushRow_mem userMap _ targetUserIds [] row h' with h'' | h''
  · cases h''
  · refine ⟨h''.1, ?_, ?_, ?_, ?_⟩
    · rw [h''.2.1, scoreBuckets_points, initAccum_points, Nat.zero_add]
    · rw [h''.2.2.1, scoreBuckets_valueSum, initAccum_valueSum, Int.zero_add]
    · rw [h''.2.2.2.1, scoreBuckets_nightsLogged, initAccum_nightsLogged,
        Nat.zero_add]
    · exact h''.2.2.2.2

/-- Every target user with at least one record in the (sorted) buckets
gets a row on the `calculateBoard` board. -/
theorem calculateBoard_exists (metricFn : DayStat → Int)
    (sortAscending : Bool) (targetUserIds : List String)
    (userMap : List (String × UserDetails)) (buckets : Buckets) (u : String)
    (hu : u ∈ targetUserIds)
    (hc : 0 < bucketsCountU u (sortBuckets metricFn sortAscending buckets)) :
    ∃ row ∈ (calculateBoard metricFn sortAscending targetUserIds userMap
      buckets).1, row.userId = u := by
  have hl : 0 < mapGetD (scoreBuckets metricFn (initAccum targetUserIds)
      (sortBuckets metricFn sortAscending buckets)).nightsLogged u 0 := by
    rw [scoreBuckets_nightsLogged, initAccum_nightsLogged, Nat.zero_add]
    exact hc
  rcases foldl_pushRow_exists userMap _ targetUserIds [] u hu hl with
    ⟨row, hmem, hrow⟩
  exact ⟨row, (insSort_perm (finalLe sortAscending) _).mem_iff.mpr
    hmem, hrow⟩

/-! ### Counting records through bucketing and sorting -/

/-- Number of nights of user `u` that pass the 45-minute filter. -/
def validNightCount (u : String) (nights : List SleepNight) : Nat :=
  nights.countP (fun n => decide (n.userId = u) && decide (45 ≤ n.totalSleepMinutes))

theorem bucketsCountU_push (u : String) :
    ∀ (m : Buckets) (k : Int) (s : DayStat),
    bucketsCountU u (mapSet m k (mapGetD m k [] ++ [s]))
      = bucketsCountU u m + (if s.userId = u then 1 else 0)
  | [], k, s => by
    simp [bucketsCountU, mapGetD, mapSet, countU, List.countP_cons]
  | p :: m, k, s => by
    by_cases hp : p.1 = k
    · simp only [mapGetD, if_pos hp, mapSet, bucketsCountU, List.map_cons,
        List.sum_cons, countU, List.countP_append]
      simp [List.countP_cons]
      by_cases h : s.userId = u
      · simp [h]; omega
      · simp [h]
    · simp only [mapGetD, if_neg hp, mapSet, bucketsCountU, List.map_cons,
        List.sum_cons]
      have := bucketsCountU_push u m k s
      simp only [bucketsCountU] at this
      omega

theorem foldl_bucketStep_countU (u : String) :
    ∀ (nights : List SleepNight) (m : Buckets),
    bucketsCountU u (nights.foldl bucketStep m)
      = bucketsCountU u m + validNightCount u nights
  | [], m => by simp [validNightCount]
  | n :: nights, m => by
    rw [List.foldl_cons, foldl_bucketStep_countU u nights]
    unfold validNightCount bucketStep
    rw [List.countP_cons]
    by_cases h45 : n.totalSleepMinutes < 45
    · rw [if_pos h45]
      have : (decide (n.userId = u) && decide (45 ≤ n.totalSleepMinutes)) = false := by
        simp; omega
      rw [this]
      simp [validNightCount]
    · rw [if_neg h45, bucketsCountU_push]
      have h45' : 45 ≤ n.totalSleepMinutes := by omega
      by_cases h : n.userId = u
      · simp [mkStat, h, h45', validNightCount]; omega
      · simp [mkStat, h, validNightCount]

theorem nightsByDate_countU (u : String) (nights : List SleepNight) :
    bucketsCountU u (nightsByDate nights) = validNightCount u nights := by
  rw [nightsByDate, foldl_bucketStep_countU]
  simp [bucketsCountU]

theorem countU_sortBucket (metricFn : DayStat → Int) (sortAscending : Bool)
    (u : String) (stats : List DayStat) :
    countU u (sortBucket metricFn sortAscending stats) = countU u stats :=
  (insSort_perm (bucketLe metricFn sortAscending) stats).countP_eq _

theorem bucketsCountU_sortBuckets (metricFn : DayStat → Int)
    (sortAscending : Bool) (u : String) (buckets : Buckets) :
    bucketsCountU u (sortBuckets metricFn sortAscending buckets)
      = bucketsCountU u buckets := by
  unfold bucketsCountU sortBuckets
  rw [List.map_map]
  congr 1
  refine List.map_congr_left fun b _ => ?_
  exact countU_sortBucket metricFn sortAscending u b.2

/-! ### Comparator facts -/

theorem bucketLe_total (metricFn : DayStat → Int) (sortAscending : Bool)
    (a b : DayStat) :
    bucketLe metricFn sortAscending a b || bucketLe metricFn sortAscending b a := by
  unfold bucketLe
  split_ifs <;> simp <;> omega

theorem bucketLe_trans (metricFn : DayStat → Int) (sortAscending : Bool)
    (a b c : DayStat) (h1 : bucketLe metricFn sortAscending a b)
    (h2 : bucketLe metricFn sortAscending b c) :
    bucketLe metricFn sortAscending a c := by
  unfold bucketLe at *
  split_ifs at * <;> simp_all <;> omega

theorem finalLe_total (sortAscending : Bool) (a b : LeaderboardUser) :
    finalLe sortAscending a b || finalLe sortAscending b a := by
  unfold finalLe
  split_ifs <;> simp_all <;> omega

theorem finalLe_trans (sortAscending : Bool) (a b c : LeaderboardUser)
    (h1 : finalLe sortAscending a b) (h2 : finalLe sortAscending b c) :
    finalLe sortAscending a c := by
  unfold finalLe at *
  split_ifs at * <;> simp_all <;> omega

/-- Every bucket emitted by `sortBuckets` is sorted by the variant's
comparator. -/
theorem sortBuckets_sorted (metricFn : DayStat → Int) (sortAscending : Bool)
    (buckets : Buckets) (b : Int × List DayStat)
    (hb : b ∈ sortBuckets metricFn sortAscending buckets) :
    b.2.Pairwise (fun x y => bucketLe metricFn sortAscending x y = true) := by
  rcases List.mem_map.mp hb with ⟨b0, _, rfl⟩
  exact insSort_sorted (bucketLe metricFn sortAscending)
    (bucketLe_trans metricFn sortAscending)
    (bucketLe_total metricFn sortAscending) b0.2

/-! ### The bucket states threaded through the four variants -/

def leadB0 (nights : List SleepNight) : Buckets := nightsByDate nights

def leadB1 (nights : List SleepNight) : Buckets :=
  sortBuckets (·.total) true (leadB0 nights)

def leadB2 (nights : List SleepNight) : Buckets :=
  sortBuckets (·.total) false (leadB1 nights)

def leadB3 (nights : List SleepNight) : Buckets :=
  sortBuckets (·.rem) false (leadB2 nights)

/-- The four response boards, written through the threaded bucket
states. -/
theorem computeLeaderboards_eq (targetUserIds : List String)
    (userMap : List (String × UserDetails)) (nights : List SleepNight) :
    computeLeaderboards targetUserIds userMap nights
      = { survivalist :=
            (calculateBoard (·.total) true targetUserIds userMap
              (leadB0 nights)).1
          hibernator :=
            (calculateBoard (·.total) false targetUserIds userMap
              (leadB1 nights)).1
          tomRemmer :=
            (calculateBoard (·.rem) false targetUserIds userMap
              (leadB2 nights)).1
          rollingInTheDeep :=
            (calculateBoard (·.deep) false targetUserIds userMap
              (leadB3 nights)).1 } := rfl

theorem leadB0_countU (u : String) (nights : List SleepNight) :
    bucketsCountU u (leadB0 nights) = validNightCount u nights :=
  nightsByDate_countU u nights

theorem leadB1_countU (u : String) (nights : List SleepNight) :
    bucketsCountU u (leadB1 nights) = validNightCount u nights := by
  rw [leadB1, bucketsCountU_sortBuckets, leadB0_countU]

theorem leadB2_countU (u : String) (nights : List SleepNight) :
    bucketsCountU u (leadB2 nights) = validNightCount u nights := by
  rw [leadB2, bucketsCountU_sortBuckets, leadB1_countU]

theorem leadB3_countU (u : String) (nights : List SleepNight) :
    bucketsCountU u (leadB3 nights) = validNightCount u nights := by
  rw [leadB3, bucketsCountU_sortBuckets, leadB2_countU]

/-- A target user owns a row on a `calculateBoard` board exactly when
they have at least one record in the buckets. -/
theorem calculateBoard_row_iff (metricFn : DayStat → Int)
    (sortAscending : Bool) (targetUserIds : List String)
    (userMap : List (String × UserDetails)) (buckets : Buckets)
    (u : String) (N : Nat) (hu : u ∈ targetUserIds)
    (hcnt : bucketsCountU u (sortBuckets metricFn sortAscending buckets) = N) :
    (∃ row ∈ (calculateBoard metricFn sortAscending targetUserIds userMap
      buckets).1, row.userId = u) ↔ 0 < N := by
  constructor
  · rintro ⟨row, hrow, rfl⟩
    have h := calculateBoard_mem metricFn sortAscending targetUserIds userMap
      buckets row hrow
    rw [← hcnt, ← h.2.2.2.1]
    exact h.2.2.2.2
  · intro hpos
    exact calculateBoard_exists metricFn sortAscending targetUserIds userMap
      buckets u hu (by rw [hcnt]; exact hpos)

/-! ### Point bounds -/

theorem awardPoints_le_three (i : Nat) : awardPoints i ≤ 3 := by
  unfold awardPoints
  split_ifs <;> omega

theorem dayAward_le (u : String) (stats : List DayStat) :
    dayAward u stats ≤ 3 * countU u stats := by
  rw [dayAward, countU_eq_sum,
    ← enum_map_snd_comp stats (fun s => if s.userId = u then (1 : Nat) else 0),
    ← List.sum_map_mul_left]
  refine List.sum_le_sum fun p _ => ?_
  by_cases h : p.2.userId = u
  · simpa [h] using awardPoints_le_three p.1
  · simp [h]

theorem bucketsAward_le (u : String) (buckets : Buckets) :
    bucketsAward u buckets ≤ 3 * bucketsCountU u buckets := by
  rw [bucketsAward, bucketsCountU, ← List.sum_map_mul_left]
  exact List.sum_le_sum fun b _ => dayAward_le u b.2

theorem calculateBoard_points_le (metricFn : DayStat → Int)
    (sortAscending : Bool) (targetUserIds : List String)
    (userMap : List (String × UserDetails)) (buckets : Buckets)
    (row : LeaderboardUser)
    (h : row ∈ (calculateBoard metricFn sortAscending targetUserIds userMap
      buckets).1) :
    row.points ≤ 3 * row.nightsLogged := by
  have hm := calculateBoard_mem metricFn sortAscending targetUserIds userMap
    buckets row h
  rw [hm.2.1, hm.2.2.2.1]
  exact bucketsAward_le _ _

/-! ### Claim theorems -/

/-- C1: for every calendar-day bucket and metric variant, the engine
sorts the bucket by the variant's extracted value in the variant's
direction, awards 3/2/1/0 by rank inside the sorted bucket, and
accumulates these per-day awards into each user's point total across the
whole window; concretely, a user who is best on 3 separate days earns
3 × 3 = 9 points. -/
theorem C1_per_day_rank_scoring :
    (∀ (metricFn : DayStat → Int) (sortAscending : Bool) (buckets : Buckets),
      ∀ b ∈ sortBuckets metricFn sortAscending buckets,
        b.2.Pairwise (fun x y => bucketLe metricFn sortAscending x y = true)) ∧
    (∀ (metricFn : DayStat → Int) (sortAscending : Bool)
        (targetUserIds : List String)
        (userMap : List (String × UserDetails)) (buckets : Buckets),
      ∀ row ∈ (calculateBoard metricFn sortAscending targetUserIds userMap
        buckets).1,
        row.points = bucketsAward row.userId
          (sortBuckets metricFn sortAscending buckets)) ∧
    (computeLeaderboards ["A", "B"] []
        [⟨"A", 0, 100, 10, 10⟩, ⟨"B", 0, 200, 10, 10⟩,
         ⟨"A", msPerDay, 100, 10, 10⟩, ⟨"B", msPerDay, 200, 10, 10⟩,
         ⟨"A", 2 * msPerDay, 100, 10, 10⟩,
         ⟨"B", 2 * msPerDay, 200, 10, 10⟩]).survivalist.map
      (fun r => (r.userId, r.points)) = [("A", 9), ("B", 6)] := by
  refine ⟨sortBuckets_sorted, fun m asc ids umap buckets row h =>
    (calculateBoard_mem m asc ids umap buckets row h).2.1, by decide⟩

theorem C1_per_day_rank_scoring_witness :
    (((0 : Int), [DayStat.mk "A" 50 2 2, DayStat.mk "B" 100 1 1]) ∈
        sortBuckets (·.total) true [(0, [⟨"B", 100, 1, 1⟩, ⟨"A", 50, 2, 2⟩])] ∧
      ([DayStat.mk "A" 50 2 2, DayStat.mk "B" 100 1 1]).Pairwise
        (fun x y => bucketLe (·.total) true x y = true)) ∧
    ((⟨"A", none, none, none, 3, 50, 1⟩ : LeaderboardUser) ∈
        (calculateBoard (·.total) true ["A"] [] [(0, [⟨"A", 50, 2, 2⟩])]).1 ∧
      (3 : Nat) = bucketsAward "A"
        (sortBuckets (·.total) true [(0, [⟨"A", 50, 2, 2⟩])])) :=
  ⟨⟨by decide, C1_per_day_rank_scoring.1 (·.total) true
      [(0, [⟨"B", 100, 1, 1⟩, ⟨"A", 50, 2, 2⟩])]
      ((0 : Int), [DayStat.mk "A" 50 2 2, DayStat.mk "B" 100 1 1])
      (by decide)⟩,
    ⟨by decide, C1_per_day_rank_scoring.2.1 (·.total) true ["A"] []
      [(0, [⟨"A", 50, 2, 2⟩])]
      (⟨"A", none, none, none, 3, 50, 1⟩ : LeaderboardUser) (by decide)⟩⟩

/-- C10: on every board returned by `computeLeaderboards`, every row
satisfies `0 ≤ points ≤ 3 * nightsLogged`: each filtered-in night awards
at most 3 points on any variant. -/
theorem C10_points_bound (targetUserIds : List String)
    (userMap : List (String × UserDetails)) (nights : List SleepNight) :
    ∀ board ∈ [(computeLeaderboards targetUserIds userMap nights).survivalist,
        (computeLeaderboards targetUserIds userMap nights).hibernator,
        (computeLeaderboards targetUserIds userMap nights).tomRemmer,
        (computeLeaderboards targetUserIds userMap nights).rollingInTheDeep],
      ∀ row ∈ board, 0 ≤ row.points ∧ row.points ≤ 3 * row.nightsLogged := by
  intro board hb row hrow
  refine ⟨Nat.zero_le _, ?_⟩
  rw [computeLeaderboards_eq] at hb
  simp only [List.mem_cons, List.not_mem_nil, or_false] at hb
  rcases hb with rfl | rfl | rfl | rfl
  · exact calculateBoard_points_le _ _ _ _ _ row hrow
  · exact calculateBoard_points_le _ _ _ _ _ row hrow
  · exact calculateBoard_points_le _ _ _ _ _ row hrow
  · exact calculateBoard_points_le _ _ _ _ _ row hrow

theorem C10_points_bound_witness :
    (computeLeaderboards ["A"] [] [⟨"A", 0, 50, 1, 1⟩]).survivalist ∈
        [(computeLeaderboards ["A"] [] [⟨"A", 0, 50, 1, 1⟩]).survivalist,
         (computeLeaderboards ["A"] [] [⟨"A", 0, 50, 1, 1⟩]).hibernator,
         (computeLeaderboards ["A"] [] [⟨"A", 0, 50, 1, 1⟩]).tomRemmer,
         (computeLeaderboards ["A"] [] [⟨"A", 0, 50, 1, 1⟩]).rollingInTheDeep] ∧
      (⟨"A", none, none, none, 3, 50, 1⟩ : LeaderboardUser) ∈
        (computeLeaderboards ["A"] [] [⟨"A", 0, 50, 1, 1⟩]).survivalist ∧
      (0 ≤ (3 : Nat) ∧ (3 : Nat) ≤ 3 * 1) :=
  ⟨by decide, by decide,
    C10_points_bound ["A"] [] [⟨"A", 0, 50, 1, 1⟩]
      (computeLeaderboards ["A"] [] [⟨"A", 0, 50, 1, 1⟩]).survivalist
      (by decide)
      (⟨"A", none, none, none, 3, 50, 1⟩ : LeaderboardUser) (by decide)⟩

/-- C5: a user of the resolved population appears as a row on a variant's
board (for any of the four variants) exactly when at least one of their
nights passes the 45-minute filter; in particular population members
with zero valid nights are absent from all four boards. -/
theorem C5_board_membership (targetUserIds : List String)
    (userMap : List (String × UserDetails)) (nights : List SleepNight)
    (u : String) (hu : u ∈ targetUserIds) :
    ∀ board ∈ [(computeLeaderboards targetUserIds userMap nights).survivalist,
        (computeLeaderboards targetUserIds userMap nights).hibernator,
        (computeLeaderboards targetUserIds userMap nights).tomRemmer,
        (computeLeaderboards targetUserIds userMap nights).rollingInTheDeep],
      ((∃ row ∈ board, row.userId = u) ↔ 0 < validNightCount u nights) := by
  intro board hb
  rw [computeLeaderboards_eq] at hb
  simp only [List.mem_cons, List.not_mem_nil, or_false] at hb
  rcases hb with rfl | rfl | rfl | rfl
  · exact calculateBoard_row_iff _ _ _ _ _ u _ hu
      (by rw [bucketsCountU_sortBuckets, leadB0_countU])
  · exact calculateBoard_row_iff _ _ _ _ _ u _ hu
      (by rw [bucketsCountU_sortBuckets, leadB1_countU])
  · exact calculateBoard_row_iff _ _ _ _ _ u _ hu
      (by rw [bucketsCountU_sortBuckets, leadB2_countU])
  · exact calculateBoard_row_iff _ _ _ _ _ u _ hu
      (by rw [bucketsCountU_sortBuckets, leadB3_countU])

theorem C5_board_membership_witness :
    "A" ∈ ["A", "B"] ∧
      ((∃ row ∈ (computeLeaderboards ["A", "B"] []
          [⟨"A", 0, 50, 1, 1⟩]).survivalist, row.userId = "A") ↔
        0 < validNightCount "A" [⟨"A", 0, 50, 1, 1⟩]) :=
  ⟨by decide, C5_board_membership ["A", "B"] [] [⟨"A", 0, 50, 1, 1⟩] "A"
    (by decide) _ (List.mem_cons_self _ _)⟩

/-! ### The 45-minute filter commutes with scoring -/

theorem foldl_bucketStep_filter :
    ∀ (nights : List SleepNight) (m : Buckets),
    (nights.filter (fun n => decide (45 ≤ n.totalSleepMinutes))).foldl
        bucketStep m
      = nights.foldl bucketStep m
  | [], _ => rfl
  | n :: nights, m => by
    by_cases h : (45 : Int) ≤ n.totalSleepMinutes
    · rw [List.filter_cons_of_pos (by simpa using h), List.foldl_cons,
        List.foldl_cons, foldl_bucketStep_filter nights]
    · have hskip : bucketStep m n = m := by
        unfold bucketStep
        rw [if_pos (by omega)]
      rw [List.filter_cons_of_neg (by simpa using h),
        foldl_bucketStep_filter nights, List.foldl_cons, hskip]

theorem nightsByDate_filter (nights : List SleepNight) :
    nightsByDate (nights.filter (fun n => decide (45 ≤ n.totalSleepMinutes)))
      = nightsByDate nights :=
  foldl_bucketStep_filter nights []

/-- C4: a record is excluded from all scoring exactly when its
`totalSleepMinutes` is below 45 — dropping the sub-45 records before
bucketing changes nothing on any variant — a 44-minute record
contributes no points, value or nights anywhere, while a 45-minute
record contributes to all four boards. -/
theorem C4_filter_under_45 :
    (∀ (targetUserIds : List String) (userMap : List (String × UserDetails))
        (nights : List SleepNight),
      computeLeaderboards targetUserIds userMap nights
        = computeLeaderboards targetUserIds userMap
            (nights.filter (fun n => decide (45 ≤ n.totalSleepMinutes)))) ∧
    computeLeaderboards ["A"] [] [⟨"A", 0, 44, 10, 10⟩] = emptyBoards ∧
    computeLeaderboards ["A"] [] [⟨"A", 0, 45, 10, 10⟩]
      = { survivalist := [⟨"A", none, none, none, 3, 45, 1⟩]
          hibernator := [⟨"A", none, none, none, 3, 45, 1⟩]
          tomRemmer := [⟨"A", none, none, none, 3, 10, 1⟩]
          rollingInTheDeep := [⟨"A", none, none, none, 3, 10, 1⟩] } := by
  refine ⟨fun targetUserIds userMap nights => ?_, by decide, by decide⟩
  simp only [computeLeaderboards, nightsByDate_filter]

/-! ### Final board ordering -/

/-- Every `calculateBoard` board is sorted by points descending, with the
direction-dependent raw-value tie-break among equal points. -/
theorem calculateBoard_sorted (metricFn : DayStat → Int)
    (sortAscending : Bool) (targetUserIds : List String)
    (userMap : List (String × UserDetails)) (buckets : Buckets) :
    (calculateBoard metricFn sortAscending targetUserIds userMap
      buckets).1.Pairwise (fun a b =>
        b.points < a.points ∨ (a.points = b.points ∧
          (if sortAscending then a.value ≤ b.value else b.value ≤ a.value))) := by
  have h := insSort_sorted (finalLe sortAscending) (finalLe_trans sortAscending)
    (finalLe_total sortAscending)
    (assembleRows targetUserIds userMap
      (scoreBuckets metricFn (initAccum targetUserIds)
        (sortBuckets metricFn sortAscending buckets)))
  refine h.imp ?_
  intro a b hab
  unfold finalLe at hab
  by_cases h1 : a.points = b.points
  · rw [if_pos h1] at hab
    refine Or.inr ⟨h1, ?_⟩
    by_cases h2 : sortAscending
    · rw [if_pos h2] at hab
      rw [if_pos h2]
      exact of_decide_eq_true hab
    · rw [if_neg h2] at hab
      rw [if_neg h2]
      exact of_decide_eq_true hab
  · rw [if_neg h1] at hab
    exact Or.inl (of_decide_eq_true hab)

/-- C2: every board of `computeLeaderboards` is sorted by accumulated
points descending; among equal-points rows, the ascending variant
(survivalist) puts the lower value sum first and the descending variants
put the higher value sum first. -/
theorem C2_final_ordering (targetUserIds : List String)
    (userMap : List (String × UserDetails)) (nights : List SleepNight) :
    (computeLeaderboards targetUserIds userMap nights).survivalist.Pairwise
      (fun a b => b.points < a.points ∨
        (a.points = b.points ∧ a.value ≤ b.value)) ∧
    (computeLeaderboards targetUserIds userMap nights).hibernator.Pairwise
      (fun a b => b.points < a.points ∨
        (a.points = b.points ∧ b.value ≤ a.value)) ∧
    (computeLeaderboards targetUserIds userMap nights).tomRemmer.Pairwise
      (fun a b => b.points < a.points ∨
        (a.points = b.points ∧ b.value ≤ a.value)) ∧
    (computeLeaderboards targetUserIds userMap
      nights).rollingInTheDeep.Pairwise
      (fun a b => b.points < a.points ∨
        (a.points = b.points ∧ b.value ≤ a.value)) := by
  rw [computeLeaderboards_eq]
  refine ⟨?_, ?_, ?_, ?_⟩
  · simpa using calculateBoard_sorted (·.total) true targetUserIds userMap
      (leadB0 nights)
  · simpa using calculateBoard_sorted (·.total) false targetUserIds userMap
      (leadB1 nights)
  · simpa using calculateBoard_sorted (·.rem) false targetUserIds userMap
      (leadB2 nights)
  · simpa using calculateBoard_sorted (·.deep) false targetUserIds userMap
      (leadB3 nights)

/-! ### The two-user one-day scenario -/

/-- C6 counterexample: in the scenario (A = 300/50/20, B = 500/10/90 on
one day), the survivalist board gives B rank 1 and therefore 2 points;
the claimed `B.points = 0` is false. -/
theorem C6_counterexample :
    ((computeLeaderboards ["A", "B"] []
        [⟨"A", 0, 300, 50, 20⟩, ⟨"B", 0, 500, 10, 90⟩]).survivalist.map
      (fun r => (r.userId, r.points))) = [("A", 3), ("B", 2)] ∧
    ¬ (∃ row ∈ (computeLeaderboards ["A", "B"] []
        [⟨"A", 0, 300, 50, 20⟩, ⟨"B", 0, 500, 10, 90⟩]).survivalist,
        row.userId = "B" ∧ row.points = 0) := by decide

/-- C6 (amended): in the scenario the boards are as claimed except that
B earns the rank-1 award of 2 points on survivalist (and A likewise
earns 2 points on each descending board). -/
theorem C6_scenario :
    (computeLeaderboards ["A", "B"] []
        [⟨"A", 0, 300, 50, 20⟩, ⟨"B", 0, 500, 10, 90⟩]).survivalist.map
      (fun r => (r.userId, r.points, r.value)) = [("A", 3, 300), ("B", 2, 500)] ∧
    (computeLeaderboards ["A", "B"] []
        [⟨"A", 0, 300, 50, 20⟩, ⟨"B", 0, 500, 10, 90⟩]).hibernator.map
      (fun r => (r.userId, r.points)) = [("B", 3), ("A", 2)] ∧
    (computeLeaderboards ["A", "B"] []
        [⟨"A", 0, 300, 50, 20⟩, ⟨"B", 0, 500, 10, 90⟩]).tomRemmer.map
      (fun r => r.userId) = ["A", "B"] ∧
    (computeLeaderboards ["A", "B"] []
        [⟨"A", 0, 300, 50, 20⟩, ⟨"B", 0, 500, 10, 90⟩]).rollingInTheDeep.map
      (fun r => r.userId) = ["B", "A"] := by decide

/-! ### Clan short-circuit -/

/-- C7: when the requester has no group membership and the scope is
`clan`, the route returns all four boards empty and issues no
sleep-record query. -/
theorem C7_clan_short_circuit (db : Db) (userId : String) (now : Int)
    (h : (db.users.find? (fun u => u.id == userId)).bind (·.groupId) = none) :
    leaderboardHandler db userId .clan now = (emptyBoards, false) := by
  unfold leaderboardHandler resolveTargets
  rw [h]

theorem C7_clan_short_circuit_witness :
    ((Db.mk [⟨"A", none, none, none, none⟩] []
        [⟨"A", 0, 500, 1, 1⟩]).users.find?
          (fun u => u.id == "A")).bind (·.groupId) = none ∧
    leaderboardHandler
        (Db.mk [⟨"A", none, none, none, none⟩] [] [⟨"A", 0, 500, 1, 1⟩])
        "A" .clan 0 = (emptyBoards, false) :=
  ⟨by decide, C7_clan_short_circuit
    (Db.mk [⟨"A", none, none, none, none⟩] [] [⟨"A", 0, 500, 1, 1⟩])
    "A" 0 (by decide)⟩

/-! ### Window characterization -/

/-- Start of the requested week as the specification words it: `now`'s
date truncated to 00:00 UTC, moved back `(weekday_of(now) + 6) mod 7`
days plus `7 * weekOffset` days. -/
def startOfWeekSpec (now : Int) (offset : Int) : Int :=
  truncToUTCDay now - ((utcDay now + 6) % 7 + 7 * offset) * msPerDay

theorem msPerDay_ne_zero : msPerDay ≠ 0 := by
  unfold msPerDay
  norm_num

theorem truncToUTCDay_sub_days (t k : Int) :
    truncToUTCDay (t - k * msPerDay) = truncToUTCDay t - k * msPerDay := by
  unfold truncToUTCDay
  have hb : (0 : Int) ≤ msPerDay := by unfold msPerDay; norm_num
  rw [Int.fdiv_eq_ediv _ hb, Int.fdiv_eq_ediv _ hb]
  have h : t - k * msPerDay = t + -k * msPerDay := by ring
  rw [h, Int.add_mul_ediv_right t (-k) msPerDay_ne_zero]
  ring

theorem startOfWeek_eq_spec (now offset : Int) :
    startOfWeek now offset = startOfWeekSpec now offset := by
  have hd0 : 0 ≤ utcDay now := Int.emod_nonneg _ (by norm_num)
  have hd7 : utcDay now < 7 := Int.emod_lt_of_pos _ (by norm_num)
  have hmod : (if utcDay now = 0 then (6 : Int) else utcDay now - 1)
      = (utcDay now + 6) % 7 := by
    omega
  simp only [startOfWeek, startOfWeekSpec]
  rw [hmod, truncToUTCDay_sub_days]
  ring

/-- C3: for every request time and every non-negative week offset, the
records fetched for scoring are exactly those of a target user whose
date lies in the half-open interval `[start, start + 7 days)`, where
`start` is `now`'s date moved back `((weekday_of(now) + 6) mod 7) +
7 * weekOffset` days and truncated to 00:00 UTC. -/
theorem C3_window (now offset : Int) (_hoff : 0 ≤ offset) :
    startOfWeek now offset = startOfWeekSpec now offset ∧
    ∀ (nights : List SleepNight) (targetUserIds : List String)
      (n : SleepNight),
      n ∈ fetchedNights nights targetUserIds now offset ↔
        n ∈ nights ∧ targetUserIds.contains n.userId = true ∧
          startOfWeekSpec now offset ≤ n.date ∧
          n.date < startOfWeekSpec now offset + 7 * msPerDay := by
  refine ⟨startOfWeek_eq_spec now offset, ?_⟩
  intro nights targetUserIds n
  unfold fetchedNights endOfWeek
  rw [List.mem_filter, startOfWeek_eq_spec]
  simp [and_assoc]

theorem C3_window_witness :
    (0 : Int) ≤ 1 ∧
    (startOfWeek 0 1 = startOfWeekSpec 0 1 ∧
      ((⟨"A", -7 * msPerDay, 50, 1, 1⟩ : SleepNight) ∈
          fetchedNights [⟨"A", -7 * msPerDay, 50, 1, 1⟩] ["A"] 0 1 ↔
        (⟨"A", -7 * msPerDay, 50, 1, 1⟩ : SleepNight) ∈
            [(⟨"A", -7 * msPerDay, 50, 1, 1⟩ : SleepNight)] ∧
          (["A"].contains "A") = true ∧
          startOfWeekSpec 0 1 ≤ -7 * msPerDay ∧
          -7 * msPerDay < startOfWeekSpec 0 1 + 7 * msPerDay)) :=
  ⟨by decide, (C3_window 0 1 (by decide)).1,
    (C3_window 0 1 (by decide)).2 [⟨"A", -7 * msPerDay, 50, 1, 1⟩] ["A"]
      ⟨"A", -7 * msPerDay, 50, 1, 1⟩⟩

/-! ### Nights logged equal the distinct valid days -/

theorem validNightCount_eq_distinct_days (u : String)
    (nights : List SleepNight)
    (hU : (nights.map (fun n => (n.userId, dateKey n.date))).Nodup) :
    validNightCount u nights
      = ((nights.filter (fun n => decide (n.userId = u)
            && decide (45 ≤ n.totalSleepMinutes))).map
          (fun n => dateKey n.date)).dedup.length := by
  rw [validNightCount, List.countP_eq_length_filter]
  have hsub : List.Sublist (nights.filter (fun n => decide (n.userId = u)
      && decide (45 ≤ n.totalSleepMinutes))) nights :=
    List.filter_sublist _
  have hpairs : ((nights.filter (fun n => decide (n.userId = u)
      && decide (45 ≤ n.totalSleepMinutes))).map
        (fun n => (n.userId, dateKey n.date))).Nodup :=
    hU.sublist (hsub.map _)
  have hcongr : (nights.filter (fun n => decide (n.userId = u)
        && decide (45 ≤ n.totalSleepMinutes))).map
          (fun n => (n.userId, dateKey n.date))
      = ((nights.filter (fun n => decide (n.userId = u)
          && decide (45 ≤ n.totalSleepMinutes))).map
            (fun n => dateKey n.date)).map (fun k => (u, k)) := by
    rw [List.map_map]
    refine List.map_congr_left fun n hn => ?_
    have hmem := (List.mem_filter.mp hn).2
    have hid : n.userId = u := by
      have h' := (Bool.and_eq_true _ _).mp hmem
      exact of_decide_eq_true h'.1
    simp [hid]
  rw [hcongr] at hpairs
  have hnd : ((nights.filter (fun n => decide (n.userId = u)
      && decide (45 ≤ n.totalSleepMinutes))).map
        (fun n => dateKey n.date)).Nodup :=
    List.Nodup.of_map _ hpairs
  rw [List.dedup_eq_self.mpr hnd, List.length_map]

/-- C8: assuming at most one record per (user, date) pair, the
`nightsLogged` reported for a user is the same on all four boards and
equals the number of distinct calendar days in the window on which the
user has a filtered-in record. -/
theorem C8_nights_logged (targetUserIds : List String)
    (userMap : List (String × UserDetails)) (nights : List SleepNight)
    (hU : (nights.map (fun n => (n.userId, dateKey n.date))).Nodup) :
    ∀ board ∈ [(computeLeaderboards targetUserIds userMap nights).survivalist,
        (computeLeaderboards targetUserIds userMap nights).hibernator,
        (computeLeaderboards targetUserIds userMap nights).tomRemmer,
        (computeLeaderboards targetUserIds userMap nights).rollingInTheDeep],
      ∀ row ∈ board,
        row.nightsLogged = ((nights.filter (fun n =>
            decide (n.userId = row.userId)
              && decide (45 ≤ n.totalSleepMinutes))).map
          (fun n => dateKey n.date)).dedup.length := by
  intro board hb row hrow
  rw [computeLeaderboards_eq] at hb
  simp only [List.mem_cons, List.not_mem_nil, or_false] at hb
  rcases hb with rfl | rfl | rfl | rfl
  · rw [(calculateBoard_mem _ _ _ _ _ row hrow).2.2.2.1,
      bucketsCountU_sortBuckets, leadB0_countU,
      validNightCount_eq_distinct_days _ _ hU]
  · rw [(calculateBoard_mem _ _ _ _ _ row hrow).2.2.2.1,
      bucketsCountU_sortBuckets, leadB1_countU,
      validNightCount_eq_distinct_days _ _ hU]
  · rw [(calculateBoard_mem _ _ _ _ _ row hrow).2.2.2.1,
      bucketsCountU_sortBuckets, leadB2_countU,
      validNightCount_eq_distinct_days _ _ hU]
  · rw [(calculateBoard_mem _ _ _ _ _ row hrow).2.2.2.1,
      bucketsCountU_sortBuckets, leadB3_countU,
      validNightCount_eq_distinct_days _ _ hU]

theorem C8_nights_logged_witness :
    (([⟨"A", 0, 50, 1, 1⟩] : List SleepNight).map
        (fun n => (n.userId, dateKey n.date))).Nodup ∧
    (computeLeaderboards ["A"] [] [⟨"A", 0, 50, 1, 1⟩]).survivalist ∈
      [(computeLeaderboards ["A"] [] [⟨"A", 0, 50, 1, 1⟩]).survivalist,
       (computeLeaderboards ["A"] [] [⟨"A", 0, 50, 1, 1⟩]).hibernator,
       (computeLeaderboards ["A"] [] [⟨"A", 0, 50, 1, 1⟩]).tomRemmer,
       (computeLeaderboards ["A"] [] [⟨"A", 0, 50, 1, 1⟩]).rollingInTheDeep] ∧
    (⟨"A", none, none, none, 3, 50, 1⟩ : LeaderboardUser) ∈
      (computeLeaderboards ["A"] [] [⟨"A", 0, 50, 1, 1⟩]).survivalist ∧
    (1 : Nat) = ((([⟨"A", 0, 50, 1, 1⟩] : List SleepNight).filter (fun n =>
        decide (n.userId = "A") && decide (45 ≤ n.totalSleepMinutes))).map
      (fun n => dateKey n.date)).dedup.length :=
  ⟨by decide, by decide, by decide,
    C8_nights_logged ["A"] [] [⟨"A", 0, 50, 1, 1⟩] (by decide)
      (computeLeaderboards ["A"] [] [⟨"A", 0, 50, 1, 1⟩]).survivalist
      (by decide)
      (⟨"A", none, none, none, 3, 50, 1⟩ : LeaderboardUser) (by decide)⟩

/-! ### Order (in)dependence of the four variant computations

`calculateBoard` sorts the shared day buckets in place, so each
invocation hands the next one buckets already sorted by its own metric.
Each bucket's contents stay a permutation of the original bucket. -/

/-- Two bucket lists with the same day keys whose buckets are
permutations of one another. -/
def BucketsPerm (b b' : Buckets) : Prop :=
  List.Forall₂ (fun p q => p.1 = q.1 ∧ List.Perm p.2 q.2) b b'

theorem bucketsPerm_refl (b : Buckets) : BucketsPerm b b :=
  List.forall₂_same.mpr fun _ _ => ⟨rfl, List.Perm.refl _⟩

theorem bucketsPerm_sortBuckets (metricFn : DayStat → Int)
    (sortAscending : Bool) {b b0 : Buckets} (h : BucketsPerm b b0) :
    BucketsPerm (sortBuckets metricFn sortAscending b) b0 := by
  induction h with
  | nil => exact List.Forall₂.nil
  | cons hpq _ ih =>
    exact List.Forall₂.cons
      ⟨hpq.1, (insSort_perm _ _).trans hpq.2⟩ ih

/-- Two sorted permutations of one another are equal when the comparator
is antisymmetric on their elements. -/
theorem sorted_perm_eq {α : Type} (le : α → α → Bool) :
    ∀ (l₁ l₂ : List α), List.Perm l₁ l₂ →
      l₁.Pairwise (fun a b => le a b = true) →
      l₂.Pairwise (fun a b => le a b = true) →
      (∀ a ∈ l₁, ∀ b ∈ l₁, le a b → le b a → a = b) →
      l₁ = l₂
  | [], _, hp, _, _, _ => hp.nil_eq
  | a :: l₁, l₂, hp, hs₁, hs₂, hanti => by
    cases l₂ with
    | nil =>
      have := hp.length_eq
      simp at this
    | cons b l₂ =>
      have hab : a = b := by
        have hal : a ∈ b :: l₂ := hp.mem_iff.mp (List.mem_cons_self a l₁)
        rcases List.mem_cons.mp hal with h | h
        · exact h
        · have hbl : b ∈ a :: l₁ := hp.symm.mem_iff.mp (List.mem_cons_self b l₂)
          rcases List.mem_cons.mp hbl with h' | h'
          · exact h'.symm
          · exact hanti a (List.mem_cons_self _ _) b (List.mem_cons_of_mem _ h')
              (List.rel_of_pairwise_cons hs₁ h')
              (List.rel_of_pairwise_cons hs₂ h)
      subst hab
      have hp' : List.Perm l₁ l₂ := hp.cons_inv
      rw [sorted_perm_eq le l₁ l₂ hp' hs₁.of_cons hs₂.of_cons
        (fun x hx y hy => hanti x (List.mem_cons_of_mem _ hx) y
          (List.mem_cons_of_mem _ hy))]

/-- `insSort` only depends on the multiset of its input when the
comparator is antisymmetric on the elements. -/
theorem insSort_perm_inv {α : Type} (le : α → α → Bool)
    (trans : ∀ a b c, le a b → le b c → le a c)
    (total : ∀ a b, le a b || le b a)
    (l l' : List α) (hperm : List.Perm l l')
    (hanti : ∀ a ∈ l, ∀ b ∈ l, le a b → le b a → a = b) :
    insSort le l = insSort le l' := by
  refine sorted_perm_eq le _ _
    ((insSort_perm le l).trans (hperm.trans (insSort_perm le l').symm))
    (insSort_sorted le trans total l) (insSort_sorted le trans total l')
    fun a ha b hb h1 h2 => hanti a ((insSort_perm le l).mem_iff.mp ha)
      b ((insSort_perm le l).mem_iff.mp hb) h1 h2

/-- A bucket with pairwise-distinct metric values sorts to the same list
from any of its permutations. -/
theorem sortBucket_perm_inv (metricFn : DayStat → Int) (sortAscending : Bool)
    (s s' : List DayStat) (hperm : List.Perm s s')
    (hd : ∀ a ∈ s, ∀ b ∈ s, metricFn a = metricFn b → a = b) :
    sortBucket metricFn sortAscending s = sortBucket metricFn sortAscending s' := by
  refine insSort_perm_inv _ (bucketLe_trans metricFn sortAscending)
    (bucketLe_total metricFn sortAscending) s s' hperm ?_
  intro a ha b hb h1 h2
  refine hd a ha b hb ?_
  unfold bucketLe at h1 h2
  by_cases hasc : sortAscending
  · rw [if_pos hasc] at h1 h2
    exact Int.le_antisymm (of_decide_eq_true h1) (of_decide_eq_true h2)
  · rw [if_neg hasc] at h1 h2
    exact Int.le_antisymm (of_decide_eq_true h2) (of_decide_eq_true h1)

theorem sortBuckets_perm_inv (metricFn : DayStat → Int) (sortAscending : Bool)
    {b b0 : Buckets} (h : BucketsPerm b b0)
    (hd : ∀ p ∈ b0, ∀ a ∈ p.2, ∀ b' ∈ p.2, metricFn a = metricFn b' → a = b') :
    sortBuckets metricFn sortAscending b
      = sortBuckets metricFn sortAscending b0 := by
  induction h with
  | nil => rfl
  | @cons p q bs b0s hpq htail ih =>
    show (p.1, sortBucket metricFn sortAscending p.2)
        :: sortBuckets metricFn sortAscending bs
      = (q.1, sortBucket metricFn sortAscending q.2)
        :: sortBuckets metricFn sortAscending b0s
    have hq := hd q (List.mem_cons_self _ _)
    rw [hpq.1, sortBucket_perm_inv metricFn sortAscending p.2 q.2 hpq.2
      (fun a ha b' hb' => hq a (hpq.2.mem_iff.mp ha) b' (hpq.2.mem_iff.mp hb')),
      ih (fun p' hp' => hd p' (List.mem_cons_of_mem _ hp'))]

theorem calculateBoard_congr (metricFn : DayStat → Int) (sortAscending : Bool)
    (targetUserIds : List String) (userMap : List (String × UserDetails))
    (b b0 : Buckets)
    (h : sortBuckets metricFn sortAscending b
      = sortBuckets metricFn sortAscending b0) :
    calculateBoard metricFn sortAscending targetUserIds userMap b
      = calculateBoard metricFn sortAscending targetUserIds userMap b0 := by
  unfold calculateBoard
  rw [h]

theorem mapGetD_map_self {α β : Type} [DecidableEq α] (g : α → β) (d : β) :
    ∀ (l : List α) (v : α), v ∈ l →
      mapGetD (l.map (fun x => (x, g x))) v d = g v
  | [], v, hv => absurd hv (List.not_mem_nil v)
  | x :: l, v, hv => by
    simp only [List.map_cons, mapGetD]
    by_cases h : x = v
    · rw [if_pos h, h]
    · rw [if_neg h]
      refine mapGetD_map_self g d l v ?_
      rcases List.mem_cons.mp hv with h' | h'
      · exact absurd h'.symm h
      · exact h'

/-- Running any sequence of variant invocations over buckets whose
contents are a permutation of distinct-valued originals records, for
each variant, the board it would compute from the originals. -/
theorem foldl_runVariants (targetUserIds : List String)
    (userMap : List (String × UserDetails)) (b0 : Buckets)
    (hd : ∀ v : Variant, ∀ p ∈ b0, ∀ a ∈ p.2, ∀ b' ∈ p.2,
      v.metricFn a = v.metricFn b' → a = b') :
    ∀ (order : List Variant) (acc : List (Variant × List LeaderboardUser))
      (b : Buckets), BucketsPerm b b0 →
      (order.foldl (fun st v =>
        let r := calculateBoard v.metricFn v.sortAscending targetUserIds
          userMap st.2
        (st.1 ++ [(v, r.1)], r.2)) (acc, b)).1
      = acc ++ order.map (fun v =>
          (v, (calculateBoard v.metricFn v.sortAscending targetUserIds userMap
            b0).1))
  | [], acc, b, _ => by simp
  | v :: order, acc, b, hperm => by
    rw [List.foldl_cons]
    have heq := calculateBoard_congr v.metricFn v.sortAscending targetUserIds
      userMap b b0 (sortBuckets_perm_inv v.metricFn v.sortAscending hperm (hd v))
    show (order.foldl _
      (acc ++ [(v, (calculateBoard v.metricFn v.sortAscending targetUserIds
          userMap b).1)],
        (calculateBoard v.metricFn v.sortAscending targetUserIds userMap
          b).2)).1 = _
    rw [foldl_runVariants targetUserIds userMap b0 hd order _ _
      (heq ▸ bucketsPerm_sortBuckets v.metricFn v.sortAscending
        (bucketsPerm_refl b0) : BucketsPerm
          (calculateBoard v.metricFn v.sortAscending targetUserIds userMap
            b).2 b0),
      heq]
    simp

/-- C9 counterexample: the four variant computations share mutable day
buckets, so running them in a different order can change a board.  With
two records tying on REM minutes, `tomRemmer` differs between the
route's order and a permutation that runs `tomRemmer` first. -/
theorem C9_counterexample :
    List.Perm [Variant.tomRemmer, Variant.rollingInTheDeep,
      Variant.survivalist, Variant.hibernator] variantOrder ∧
    mapGetD (runVariants ["u1", "u2"] [] variantOrder
        (nightsByDate [⟨"u1", 0, 100, 50, 10⟩, ⟨"u2", 0, 200, 50, 20⟩])).1
      Variant.tomRemmer []
    ≠ mapGetD (runVariants ["u1", "u2"] []
        [Variant.tomRemmer, Variant.rollingInTheDeep,
          Variant.survivalist, Variant.hibernator]
        (nightsByDate [⟨"u1", 0, 100, 50, 10⟩, ⟨"u2", 0, 200, 50, 20⟩])).1
      Variant.tomRemmer [] := by decide

/-- C9 (amended): when no two records in a day bucket tie on any
variant's metric value, the four `calculateBoard` invocations commute —
every permutation of the invocation order assigns every variant the
board computed from the pristine buckets, so all orders agree. -/
theorem C9_order_independence (targetUserIds : List String)
    (userMap : List (String × UserDetails)) (buckets : Buckets)
    (hd : ∀ v : Variant, ∀ p ∈ buckets, ∀ a ∈ p.2, ∀ b' ∈ p.2,
      v.metricFn a = v.metricFn b' → a = b')
    (order : List Variant) (hperm : List.Perm order variantOrder)
    (v : Variant) :
    mapGetD (runVariants targetUserIds userMap order buckets).1 v []
      = (calculateBoard v.metricFn v.sortAscending targetUserIds userMap
        buckets).1 := by
  have hv : v ∈ order := hperm.mem_iff.mpr (by cases v <;> simp [variantOrder])
  rw [runVariants, foldl_runVariants targetUserIds userMap buckets hd order []
    buckets (bucketsPerm_refl _), List.nil_append]
  exact mapGetD_map_self _ [] order v hv

theorem C9_order_independence_witness :
    (∀ v : Variant,
      ∀ p ∈ nightsByDate [⟨"u1", 0, 100, 50, 10⟩, ⟨"u2", 0, 200, 60, 20⟩],
      ∀ a ∈ p.2, ∀ b' ∈ p.2, v.metricFn a = v.metricFn b' → a = b') ∧
    List.Perm [Variant.hibernator, Variant.survivalist,
      Variant.rollingInTheDeep, Variant.tomRemmer] variantOrder ∧
    mapGetD (runVariants ["u1", "u2"] []
        [Variant.hibernator, Variant.survivalist,
          Variant.rollingInTheDeep, Variant.tomRemmer]
        (nightsByDate [⟨"u1", 0, 100, 50, 10⟩, ⟨"u2", 0, 200, 60, 20⟩])).1
      Variant.tomRemmer []
      = (calculateBoard Variant.tomRemmer.metricFn
          Variant.tomRemmer.sortAscending ["u1", "u2"] []
          (nightsByDate [⟨"u1", 0, 100, 50, 10⟩,
            ⟨"u2", 0, 200, 60, 20⟩])).1 :=
  ⟨by decide, by decide,
    C9_order_independence ["u1", "u2"] []
      (nightsByDate [⟨"u1", 0, 100, 50, 10⟩, ⟨"u2", 0, 200, 60, 20⟩])
      (by decide)
      [Variant.hibernator, Variant.survivalist,
        Variant.rollingInTheDeep, Variant.tomRemmer]
      (by decide) Variant.tomRemmer⟩

end SleepApi
